import Mathlib

/-
Verification of the context-window manager and checkpoint subsystem of this
repository. The authoritative code lives in the repository documents
src/docs/cline-task-execution-loop.md and src/docs/cline-implementation-guide.md,
which carry the TypeScript sources of ContextManager, CheckpointTracker and
GitOperations. Definitions below embed that code; functions whose bodies are
absent from the sources (getEffectiveMessages, hasFileBeenRead, the
serialization of the overlay, git semantics) are modelled from the spec and
say so in their doc comments.
-/

/-- Content block of a conversation message. The spec calls for a tagged union
per content-block kind (text or tool result carrying a file path). -/
inductive Block where
  | text (s : String)
  | toolResult (toolName : String) (filePath : String) (content : String)
deriving DecidableEq

/-- Conversation message: a role and an ordered list of content blocks
(data model of spec section 3). -/
structure Message where
  role : String
  blocks : List Block
deriving DecidableEq

/-- One non-destructive overlay edit, as pushed by addContextUpdate in
src/docs/cline-implementation-guide.md (fields timestamp, updateType, update). -/
structure ContextUpdate where
  timestamp : Nat
  updateType : String
  update : String
deriving DecidableEq

/-- Inner map of ContextManager.contextHistoryUpdates: block index to the
ordered list of updates recorded for that block, embedded as an
association list in insertion order. -/
abbrev BlockUpdates := List (Nat × List ContextUpdate)

/-- ContextManager.contextHistoryUpdates
(Map of messageIndex to the pair of editType and inner map), from
src/docs/cline-implementation-guide.md line 465, as an association list:
entries are (messageIndex, editType, inner map). -/
abbrev ContextHistoryUpdates := List (Nat × Nat × BlockUpdates)

/-- Updates recorded for a block inside one inner map
(lookup of the first entry with the given block index). -/
def innerUpdatesFor (inner : BlockUpdates) (blockIndex : Nat) : List ContextUpdate :=
  match inner.find? (fun b => b.1 == blockIndex) with
  | none => []
  | some b => b.2

/-- Entry of the overlay for one message index. -/
def entryFor (m : ContextHistoryUpdates) (messageIndex : Nat) :
    Option (Nat × Nat × BlockUpdates) :=
  m.find? (fun e => e.1 == messageIndex)

/-- All updates recorded for a (messageIndex, blockIndex) pair. -/
def updatesFor (m : ContextHistoryUpdates) (messageIndex blockIndex : Nat) :
    List ContextUpdate :=
  match entryFor m messageIndex with
  | none => []
  | some e => innerUpdatesFor e.2.2 blockIndex

/-- Latest update for a block: the last element of its ordered update list
(data-model invariant of spec section 3: the latest update is authoritative). -/
def latestUpdate (m : ContextHistoryUpdates) (messageIndex blockIndex : Nat) :
    Option ContextUpdate :=
  (updatesFor m messageIndex blockIndex).getLast?

/-- Append updates to the first entry of the inner map with the given block
index, or create that entry at the end. -/
def addToInner (inner : BlockUpdates) (blockIndex : Nat) (us : List ContextUpdate) :
    BlockUpdates :=
  match inner with
  | [] => [(blockIndex, us)]
  | b :: rest =>
    if b.1 = blockIndex then (b.1, b.2 ++ us) :: rest
    else b :: addToInner rest blockIndex us

/-- ContextManager.addContextUpdate, called in
src/docs/cline-implementation-guide.md line 550. The body is not in the
excerpted source; modelled from the spec: recordUpdate appends an update for
the addressed (messageIndex, blockIndex) pair, creating entries as needed
(editType of a fresh message entry is 0). -/
def addContextUpdate (m : ContextHistoryUpdates) (messageIndex blockIndex : Nat)
    (us : List ContextUpdate) : ContextHistoryUpdates :=
  match m with
  | [] => [(messageIndex, 0, [(blockIndex, us)])]
  | e :: rest =>
    if e.1 = messageIndex then (e.1, e.2.1, addToInner e.2.2 blockIndex us) :: rest
    else e :: addContextUpdate rest messageIndex blockIndex us

/-- Inner step of ContextManager.pruneOldContextUpdates
(src/docs/cline-implementation-guide.md lines 903 to 921): every update list is
filtered to the updates with timestamp strictly above the cutoff, and a block
whose filtered list is empty is deleted from the inner map. -/
def pruneInner (cutoffTime : Nat) (inner : BlockUpdates) : BlockUpdates :=
  (inner.map (fun b => (b.1, b.2.filter (fun u => cutoffTime < u.timestamp)))).filter
    (fun b => !b.2.isEmpty)

/-- ContextManager.pruneOldContextUpdates
(src/docs/cline-implementation-guide.md lines 903 to 921), with the cutoff time
as a parameter (the source fixes it to 24 hours before now). A message entry
whose pruned inner map is empty is deleted. -/
def pruneOldContextUpdates (cutoffTime : Nat) (m : ContextHistoryUpdates) :
    ContextHistoryUpdates :=
  (m.map (fun e => (e.1, e.2.1, pruneInner cutoffTime e.2.2))).filter
    (fun e => !e.2.2.isEmpty)

/-- Truncation severity, the truncationType argument of
ContextManager.getNextTruncationRange ("quarter" or "half"). -/
inductive TruncationType where
  | quarter
  | half
deriving DecidableEq

/-- Number of messages to elide: Math.floor(totalMessages times 0.25) for
"quarter" and Math.floor(totalMessages times 0.5) for "half"
(src/docs/cline-task-execution-loop.md lines 277 to 280); for a nonnegative
count the float floor is exact integer division. -/
def truncateAmount (truncationType : TruncationType) (totalMessages : Int) : Int :=
  match truncationType with
  | .quarter => totalMessages / 4
  | .half => totalMessages / 2

/-- Start of the next truncation range:
currentRange ? currentRange[1] + 1 : 1
(src/docs/cline-task-execution-loop.md line 283). -/
def truncationStart (currentRange : Option (Int × Int)) : Int :=
  match currentRange with
  | some r => r.2 + 1
  | none => 1

/-- ContextManager.getNextTruncationRange
(src/docs/cline-task-execution-loop.md lines 271 to 287, identical copy in
src/docs/cline-implementation-guide.md lines 498 to 514). Only the length of
the messages array is read. Arithmetic is on Int, matching the JavaScript
number results on these integer inputs. -/
def getNextTruncationRange (messages : List Message)
    (currentRange : Option (Int × Int)) (truncationType : TruncationType) :
    Int × Int :=
  let totalMessages : Int := messages.length
  let startIndex : Int := truncationStart currentRange
  let endIndex : Int :=
    min (startIndex + truncateAmount truncationType totalMessages) (totalMessages - 10)
  (startIndex, endIndex)

/-- Severity selection in Task.attemptApiRequest
(src/docs/cline-task-execution-loop.md line 261):
totalTokens / 2 > maxAllowedSize ? "quarter" : "half".
The JavaScript float comparison totalTokens / 2 > maxAllowedSize on integers
equals 2 * maxAllowedSize < totalTokens, which is how it is written here. -/
def selectTruncationType (totalTokens maxAllowedSize : Nat) : TruncationType :=
  if 2 * maxAllowedSize < totalTokens then .quarter else .half

/-- Render one block through the overlay: the latest recorded update replaces
the original content (Modelled from the spec, section 4.1: for kept messages
each block is replaced by its latest recorded update if one exists). -/
def renderBlock (m : ContextHistoryUpdates) (messageIndex blockIndex : Nat)
    (orig : Block) : Block :=
  match latestUpdate m messageIndex blockIndex with
  | some u => Block.text u.update
  | none => orig

/-- Render one message through the overlay, block by block. -/
def renderMessage (m : ContextHistoryUpdates) (messageIndex : Nat) (msg : Message) :
    Message :=
  { msg with blocks := msg.blocks.enum.map (fun b => renderBlock m messageIndex b.1 b.2) }

/-- Keep decision of the effective history. Modelled from the spec,
section 4.1: messages inside the range are omitted, except index 0 and the
most recent tailKeep messages, which are always kept regardless of range. -/
def keepMessage (n tailKeep : Nat) (range : Option (Int × Int)) (i : Nat) : Bool :=
  match range with
  | none => true
  | some r =>
    if r.1 ≤ (i : Int) ∧ (i : Int) ≤ r.2 then decide (i = 0 ∨ n ≤ i + tailKeep)
    else true

/-- Modelled from the spec, section 4.1: getEffectiveMessages(rawHistory, range)
returns the rendered history (the body is absent from the source excerpts).
Each kept message is returned with its stable position index. -/
def getEffectiveMessages (overlay : ContextHistoryUpdates) (rawHistory : List Message)
    (range : Option (Int × Int)) (tailKeep : Nat) : List (Nat × Message) :=
  ((List.range rawHistory.length).filter (keepMessage rawHistory.length tailKeep range)).filterMap
    (fun i => (rawHistory.get? i).map (fun msg => (i, renderMessage overlay i msg)))

/-- Tests whether a block is a read of the given file path. -/
def isReadOf (filePath : String) (b : Block) : Bool :=
  match b with
  | .toolResult "read_file" fp _ => fp == filePath
  | _ => false

/-- ContextManager.hasFileBeenRead, called at
src/docs/cline-implementation-guide.md line 546. The body is absent from the
source; modelled from the spec, section 4.1: true when the file path is
already present verbatim in an earlier message. -/
def hasFileBeenRead (history : List Message) (filePath : String) (messageIndex : Nat) :
    Bool :=
  (List.range messageIndex).any (fun j =>
    match history.get? j with
    | some m => m.blocks.any (isReadOf filePath)
    | none => false)

/-- Replacement text written by handleReadFileToolCall
(src/docs/cline-implementation-guide.md line 548). -/
def duplicateReadPlaceholder (filePath : String) : String :=
  "[File " ++ filePath ++ " was previously read - content available in context]"

/-- ContextManager.handleReadFileToolCall
(src/docs/cline-implementation-guide.md lines 545 to 557): when the file has
been read before, the update carrying the placeholder is recorded at the
CURRENT messageIndex (block 0); the fileReadIndices out-set is not modelled
as no claim reads it. -/
def handleReadFileToolCall (overlay : ContextHistoryUpdates) (history : List Message)
    (messageIndex : Nat) (filePath : String) (timestamp : Nat) :
    ContextHistoryUpdates :=
  if hasFileBeenRead history filePath messageIndex then
    addContextUpdate overlay messageIndex 0
      [⟨timestamp, "text", duplicateReadPlaceholder filePath⟩]
  else overlay

/-- One row of the persisted overlay: message index, edit type, block index
and that block's ordered update list. -/
structure SerRow where
  messageIndex : Nat
  editType : Nat
  blockIndex : Nat
  updates : List ContextUpdate
deriving DecidableEq

/-- Modelled from the spec, section 6: any persistence format is acceptable
provided the round trip reproduces the overlay exactly. The overlay is
flattened to one row per block, outer order then inner order. -/
def serializeOverlay (m : ContextHistoryUpdates) : List SerRow :=
  m.flatMap (fun e => e.2.2.map (fun b => ⟨e.1, e.2.1, b.1, b.2⟩))

/-- Rebuild step of deserialization: a row extends the inner map of its
message entry, or appends a fresh entry at the end. -/
def insertRow (acc : ContextHistoryUpdates) (r : SerRow) : ContextHistoryUpdates :=
  match acc with
  | [] => [(r.messageIndex, r.editType, [(r.blockIndex, r.updates)])]
  | e :: rest =>
    if e.1 = r.messageIndex then (e.1, e.2.1, e.2.2 ++ [(r.blockIndex, r.updates)]) :: rest
    else e :: insertRow rest r

/-- Modelled from the spec, section 6: deserialization folds the rows back
into the overlay in row order (getSavedContextHistory in
src/docs/cline-implementation-guide.md line 472 reloads this persisted form). -/
def deserializeOverlay (rows : List SerRow) : ContextHistoryUpdates :=
  rows.foldl insertRow []

/-- Outer keys (message indices) of the overlay, in order. -/
def overlayKeys (m : ContextHistoryUpdates) : List Nat :=
  m.map (fun e => e.1)

/-- The JavaScript string startsWith, evaluated on the character lists. -/
def strStartsWith (s p : String) : Bool :=
  p.toList.isPrefixOf s.toList

/-- CheckpointTracker.cleanCommitHash, used at
src/docs/cline-implementation-guide.md lines 713 and 717. Its body is absent
from the source; modelled after the regex replace(HEAD whitespace, "") on the
commit result at line 688: a leading "HEAD " marker is stripped. -/
def cleanCommitHash (commitHash : String) : String :=
  if strStartsWith commitHash "HEAD " then (commitHash.toList.drop 5).asString
  else commitHash

/-- Shadow git repository for restore: the set of commit hashes in the object
store and the commit HEAD points at (work tree state is not modelled). -/
structure ShadowGitRepo where
  commits : List String
  headCommit : String
deriving DecidableEq

/-- Modelled from git semantics: a revision argument resolves to the unique
commit whose full hash starts with it; otherwise resolution fails. -/
def resolveHash (repo : ShadowGitRepo) (hash : String) : Option String :=
  match repo.commits.filter (fun c => strStartsWith c hash) with
  | [c] => some c
  | _ => none

/-- Outcome of CheckpointTracker.restore: the source throws plain Error
objects whose messages distinguish the failure, so the embedding carries the
message string. -/
inductive RestoreOutcome where
  | ok (repo : ShadowGitRepo)
  | err (msg : String)
deriving DecidableEq

/-- CheckpointTracker.restore (src/docs/cline-implementation-guide.md lines
704 to 731): hard reset to the cleaned hash, then verification that the new
HEAD starts with the cleaned hash; every throw is caught and rewrapped as a
generic Error whose message begins "Failed to restore checkpoint". -/
def restoreCheckpoint (repo : ShadowGitRepo) (commitHash : String) : RestoreOutcome :=
  match resolveHash repo (cleanCommitHash commitHash) with
  | none => .err "Failed to restore checkpoint: git reset failed"
  | some full =>
    if strStartsWith full (cleanCommitHash commitHash) then
      .ok { repo with headCommit := full }
    else
      .err ("Failed to restore checkpoint: Restore verification failed: expected "
        ++ commitHash ++ ", got " ++ full)

/-- Flags passed to git commit by CheckpointTracker.commit
(src/docs/cline-implementation-guide.md lines 678 to 681): allow-empty and
no-verify. -/
structure CommitOptions where
  allowEmpty : Bool
  noVerify : Bool
deriving DecidableEq

/-- One checkpoint commit of the shadow repository: hash, committed tree
(path and contents pairs) and message. Hashes are modelled as the values of a
fresh counter, capturing that git never reuses a hash for a new commit. -/
structure Snapshot where
  hash : Nat
  tree : List (String × String)
  message : String
deriving DecidableEq

/-- Shadow repository state for commits: the commit log oldest to newest and
the fresh hash counter. -/
structure ShadowRepoState where
  log : List Snapshot
  nextHash : Nat
deriving DecidableEq

/-- GitOperations.addCheckpointFiles, called at
src/docs/cline-implementation-guide.md line 674. The body is absent from the
source; modelled from the spec, section 4.5: stages every file under the
working directory not matched by the exclusion rules (the rules enter as the
predicate they induce on paths). -/
def addCheckpointFiles (workingFiles : List (String × String))
    (excluded : String → Bool) : List (String × String) :=
  workingFiles.filter (fun f => !excluded f.1)

/-- Modelled from git semantics: commit appends a snapshot of the staged tree
with a fresh hash; without allow-empty a commit whose tree equals the last
committed tree is refused. -/
def gitCommit (repo : ShadowRepoState) (tree : List (String × String))
    (message : String) (opts : CommitOptions) : Option (ShadowRepoState × Nat) :=
  let unchanged :=
    match repo.log.getLast? with
    | some c => c.tree == tree
    | none => false
  if !opts.allowEmpty && unchanged then none
  else
    some ({ log := repo.log ++ [⟨repo.nextHash, tree, message⟩],
            nextHash := repo.nextHash + 1 }, repo.nextHash)

/-- The options CheckpointTracker.commit passes: allow-empty true, no-verify
true (src/docs/cline-implementation-guide.md lines 678 to 681). -/
def checkpointCommitOptions : CommitOptions :=
  ⟨true, true⟩

/-- CheckpointTracker.commit (src/docs/cline-implementation-guide.md lines
665 to 699): stage everything not excluded, then git commit with the
allow-empty and no-verify flags, returning the new commit hash. -/
def commitCheckpoint (repo : ShadowRepoState) (workingFiles : List (String × String))
    (excluded : String → Bool) (message : String) : Option (ShadowRepoState × Nat) :=
  gitCommit repo (addCheckpointFiles workingFiles excluded) message
    checkpointCommitOptions

/-- Forty identical messages, the message count of the planner scenario. -/
def msgs40 : List Message :=
  List.replicate 40 ⟨"user", [Block.text "m"]⟩

/-- Twenty two identical messages, a count at which the clamp of the planner
is reached. -/
def msgs22 : List Message :=
  List.replicate 22 ⟨"user", [Block.text "m"]⟩

/-- Eleven identical messages, a count at which the planner's start index
reaches its end index. -/
def msgs11 : List Message :=
  List.replicate 11 ⟨"user", [Block.text "m"]⟩

/-- A message holding a read of file a.txt. -/
def readMsg : Message :=
  ⟨"user", [Block.toolResult "read_file" "a.txt" "CONTENT"]⟩

/-- Twenty one messages with identical file reads at indices 5 and 20, the
dedup scenario of the spec. -/
def history21 : List Message :=
  (List.range 21).map (fun i => if i = 5 ∨ i = 20 then readMsg
    else ⟨"user", [Block.text "m"]⟩)

/-- The overlay produced by processing the file read at index 20 of the dedup
scenario over an empty overlay. -/
def dedupOverlayAfter20 : ContextHistoryUpdates :=
  handleReadFileToolCall [] history21 20 "a.txt" 1000

lemma truncateAmount_nonneg (t : TruncationType) (n : Int) (hn : 0 ≤ n) :
    0 ≤ truncateAmount t n := by
  cases t <;> simp only [truncateAmount] <;> omega

lemma keepMessage_zero (n tailKeep : Nat) (range : Option (Int × Int)) :
    keepMessage n tailKeep range 0 = true := by
  cases range <;> simp [keepMessage]

lemma keepMessage_tail (n tailKeep : Nat) (range : Option (Int × Int)) (i : Nat)
    (h : n ≤ i + tailKeep) : keepMessage n tailKeep range i = true := by
  cases range with
  | none => rfl
  | some r =>
    simp only [keepMessage]
    split
    · simp [h]
    · rfl

lemma mem_effective (overlay : ContextHistoryUpdates) (raw : List Message)
    (range : Option (Int × Int)) (tailKeep i : Nat) (hi : i < raw.length)
    (hk : keepMessage raw.length tailKeep range i = true) :
    i ∈ (getEffectiveMessages overlay raw range tailKeep).map Prod.fst := by
  have h1 : i ∈ (List.range raw.length).filter (keepMessage raw.length tailKeep range) :=
    List.mem_filter.mpr ⟨List.mem_range.mpr hi, hk⟩
  have h2 : (i, renderMessage overlay i (raw.get ⟨i, hi⟩)) ∈
      getEffectiveMessages overlay raw range tailKeep := by
    refine List.mem_filterMap.mpr ⟨i, h1, ?_⟩
    rw [List.get?_eq_get hi]
    rfl
  exact List.mem_map.mpr ⟨_, h2, rfl⟩

/-- C1: the claim states that a token overage ratio of at least two elides a
half and a smaller overage elides a quarter. The source
(src/docs/cline-task-execution-loop.md line 261) does the opposite: above
twice the allowed size it picks "quarter", otherwise "half". The claimed
mapping fails at totalTokens 300, maxAllowedSize 100. -/
theorem C1_counterexample :
    ¬ (∀ totalTokens maxAllowedSize : Nat, maxAllowedSize ≤ totalTokens →
        ((2 * maxAllowedSize ≤ totalTokens →
            selectTruncationType totalTokens maxAllowedSize = TruncationType.half) ∧
         (totalTokens < 2 * maxAllowedSize →
            selectTruncationType totalTokens maxAllowedSize = TruncationType.quarter))) := by
  intro h
  exact absurd ((h 300 100 (by decide)).1 (by decide)) (by decide)

/-- C1 amended: for a request over budget, when the token total strictly
exceeds twice the allowed size the code elides a quarter of the messages, and
otherwise it elides a half. -/
theorem C1_amended_severity (totalTokens maxAllowedSize : Nat)
    (_hbudget : maxAllowedSize ≤ totalTokens) :
    (2 * maxAllowedSize < totalTokens →
      selectTruncationType totalTokens maxAllowedSize = TruncationType.quarter) ∧
    (totalTokens ≤ 2 * maxAllowedSize →
      selectTruncationType totalTokens maxAllowedSize = TruncationType.half) := by
  refine ⟨fun h2 => ?_, fun h2 => ?_⟩
  · simp [selectTruncationType, h2]
  · simp [selectTruncationType, Nat.not_lt.mpr h2]

/-- Witness for C1_amended_severity at totalTokens 300, maxAllowedSize 100. -/
theorem C1_amended_severity_witness :
    (2 * 100 < 300 → selectTruncationType 300 100 = TruncationType.quarter) ∧
    (300 ≤ 2 * 100 → selectTruncationType 300 100 = TruncationType.half) :=
  C1_amended_severity 300 100 (by decide)

/-- C2: index 0 and each of the most recent tailKeep messages are present in
the effective history for every raw history and every range
(getEffectiveMessages modelled from the spec, section 4.1). -/
theorem C2_first_and_tail_always_kept (overlay : ContextHistoryUpdates)
    (raw : List Message) (range : Option (Int × Int)) (tailKeep i : Nat)
    (hi : i < raw.length) (ht : raw.length ≤ i + tailKeep) :
    0 ∈ (getEffectiveMessages overlay raw range tailKeep).map Prod.fst ∧
    i ∈ (getEffectiveMessages overlay raw range tailKeep).map Prod.fst :=
  ⟨mem_effective _ _ _ _ _ (Nat.lt_of_le_of_lt (Nat.zero_le i) hi) (keepMessage_zero _ _ _),
   mem_effective _ _ _ _ _ hi (keepMessage_tail _ _ _ _ ht)⟩

/-- Witness for C2_first_and_tail_always_kept on the 21-message history with
range [1, 11], the default tailKeep of 10 and tail index 20. -/
theorem C2_first_and_tail_always_kept_witness :
    0 ∈ (getEffectiveMessages [] history21 (some (1, 11)) 10).map Prod.fst ∧
    20 ∈ (getEffectiveMessages [] history21 (some (1, 11)) 10).map Prod.fst :=
  C2_first_and_tail_always_kept [] history21 (some (1, 11)) 10 20 (by decide) (by decide)

/-- C3: the claim states that an index inside the current truncation range
stays inside every later range. The source
(src/docs/cline-task-execution-loop.md lines 257 to 262 and 283) replaces the
stored range by a range starting after the previous end, so index 5, inside
the first range [1, 11] of a 40-message task, is outside the next range
[12, 22]. -/
theorem C3_counterexample :
    ¬ (∀ (msgs : List Message) (r : Int × Int) (t : TruncationType) (i : Int),
        r.1 ≤ i ∧ i ≤ r.2 →
        (getNextTruncationRange msgs (some r) t).1 ≤ i ∧
          i ≤ (getNextTruncationRange msgs (some r) t).2) := by
  intro h
  exact absurd (h msgs40 (1, 11) TruncationType.quarter 5 (by decide)) (by decide)

/-- C3 amended: coverage is not monotone; what the code guarantees is that the
range moves forward, never backward: the next range starts right after the
previous end, and its end is not below the previous end whenever the previous
end respects the planner's own clamp of message count minus 10. -/
theorem C3_amended_range_moves_forward (msgs : List Message) (s e : Int)
    (t : TruncationType) (h : e ≤ (msgs.length : Int) - 10) :
    (getNextTruncationRange msgs (some (s, e)) t).1 = e + 1 ∧
    e ≤ (getNextTruncationRange msgs (some (s, e)) t).2 := by
  refine ⟨rfl, le_min ?_ h⟩
  have := truncateAmount_nonneg t (msgs.length : Int) (by positivity)
  simp only [truncationStart]
  omega

/-- Witness for C3_amended_range_moves_forward on 40 messages with previous
range [1, 11]. -/
theorem C3_amended_range_moves_forward_witness :
    (getNextTruncationRange msgs40 (some (1, 11)) TruncationType.quarter).1 = 11 + 1 ∧
    (11 : Int) ≤ (getNextTruncationRange msgs40 (some (1, 11)) TruncationType.quarter).2 :=
  C3_amended_range_moves_forward msgs40 1 11 TruncationType.quarter (by decide)

/-- C4: the claim gives the clamp as message count minus tailKeep minus 1
(tailKeep 10, so count minus 11); the source
(src/docs/cline-task-execution-loop.md line 284) clamps at count minus 10.
At 22 messages with no prior range and severity half, the code returns
[1, 12] while the claimed formula yields [1, 11]. -/
theorem C4_counterexample :
    ¬ (∀ (msgs : List Message) (r : Option (Int × Int)) (t : TruncationType),
        getNextTruncationRange msgs r t =
          (truncationStart r,
            min (truncationStart r + truncateAmount t (msgs.length : Int))
              ((msgs.length : Int) - 10 - 1))) := by
  intro h
  exact absurd (h msgs22 none TruncationType.half) (by decide)

/-- C4 amended: newStart is previous end plus 1 (or 1 with no prior range) and
newEnd = min(newStart + floor(N x f), N - tailKeep) with tailKeep 10; the
claimed 40-message quarter scenario itself is correct: the planner returns
[1, 11] and the effective history keeps exactly index 0 and indices 12 to 39. -/
theorem C4_amended_planner_formula :
    (∀ (msgs : List Message) (r : Option (Int × Int)) (t : TruncationType),
        getNextTruncationRange msgs r t =
          (truncationStart r,
            min (truncationStart r + truncateAmount t (msgs.length : Int))
              ((msgs.length : Int) - 10))) ∧
    getNextTruncationRange msgs40 none TruncationType.quarter = (1, 11) ∧
    (getEffectiveMessages [] msgs40 (some (1, 11)) 10).map Prod.fst =
      0 :: List.range' 12 28 :=
  ⟨fun _ _ _ => rfl, by decide, by decide⟩

/-- C7: the claim states that the planner yields a distinguished exhausted
result, rather than a range, whenever newStart is not below newEnd. The
source (src/docs/cline-task-execution-loop.md lines 271 to 287) has no such
result: at 11 messages with no prior range it returns the pair [1, 1], whose
start is not below its end. -/
theorem C7_counterexample :
    ¬ (∀ (msgs : List Message) (r : Option (Int × Int)) (t : TruncationType),
        (getNextTruncationRange msgs r t).1 < (getNextTruncationRange msgs r t).2) := by
  intro h
  exact absurd (h msgs11 none TruncationType.quarter) (by decide)

/-- C7 amended: the planner always returns the computed pair, with no
exhaustion signal and no ContextExhaustedError anywhere in the code; at 11
messages with no prior range the returned range [1, 1] has newStart equal to
newEnd. -/
theorem C7_amended_no_exhausted_result :
    getNextTruncationRange msgs11 none TruncationType.quarter = (1, 1) ∧
    ¬ ((1 : Int) < 1) := by
  exact ⟨by decide, by decide⟩

lemma innerUpdatesFor_cons (x : Nat × List ContextUpdate) (xs : BlockUpdates) (bi : Nat) :
    innerUpdatesFor (x :: xs) bi = if x.1 = bi then x.2 else innerUpdatesFor xs bi := by
  by_cases hx : x.1 = bi
  · rw [if_pos hx]
    unfold innerUpdatesFor
    rw [List.find?_cons_of_pos _ (by simp [hx])]
  · rw [if_neg hx]
    unfold innerUpdatesFor
    rw [List.find?_cons_of_neg _ (by simp [hx])]

lemma innerUpdatesFor_eq_nil_of_not_mem (inner : BlockUpdates) (bi : Nat)
    (h : bi ∉ inner.map (fun b => b.1)) : innerUpdatesFor inner bi = [] := by
  have hfind : inner.find? (fun b => b.1 == bi) = none :=
    List.find?_eq_none.mpr (fun b hb => by
      simp only [beq_iff_eq]
      intro heq
      exact h (List.mem_map.mpr ⟨b, hb, heq⟩))
  simp [innerUpdatesFor, hfind]

lemma keys_pruneInner_subset (c : Nat) (inner : BlockUpdates) :
    (pruneInner c inner).map (fun b => b.1) ⊆ inner.map (fun b => b.1) := by
  intro x hx
  simp only [pruneInner, List.mem_map] at hx
  obtain ⟨b, hb, rfl⟩ := hx
  have hb2 := List.mem_of_mem_filter hb
  simp only [List.mem_map] at hb2
  obtain ⟨a, ha, heq⟩ := hb2
  exact List.mem_map.mpr ⟨a, ha, by rw [← heq]⟩

lemma pruneInner_cons (c : Nat) (b : Nat × List ContextUpdate) (rest : BlockUpdates) :
    pruneInner c (b :: rest) =
      if (b.2.filter (fun u => c < u.timestamp)).isEmpty then pruneInner c rest
      else (b.1, b.2.filter (fun u => c < u.timestamp)) :: pruneInner c rest := by
  simp only [pruneInner, List.map_cons, List.filter_cons]
  by_cases he : (b.2.filter (fun u => c < u.timestamp)).isEmpty
  · simp [he]
  · simp [he]

lemma innerUpdatesFor_pruneInner (c : Nat) (inner : BlockUpdates) (bi : Nat)
    (hn : (inner.map (fun b => b.1)).Nodup) :
    innerUpdatesFor (pruneInner c inner) bi =
      (innerUpdatesFor inner bi).filter (fun u => c < u.timestamp) := by
  induction inner with
  | nil => rfl
  | cons b rest ih =>
    simp only [List.map_cons, List.nodup_cons] at hn
    rw [pruneInner_cons, innerUpdatesFor_cons]
    by_cases hbi : b.1 = bi
    · by_cases he : (b.2.filter (fun u => c < u.timestamp)).isEmpty
      · rw [if_pos he, if_pos hbi]
        have hnot : bi ∉ (pruneInner c rest).map (fun x => x.1) := by
          intro hmem
          exact hn.1 (hbi ▸ keys_pruneInner_subset c rest hmem)
        rw [innerUpdatesFor_eq_nil_of_not_mem _ _ hnot]
        rw [List.isEmpty_iff] at he
        exact he.symm
      · rw [if_neg he, innerUpdatesFor_cons]
        simp [hbi]
    · by_cases he : (b.2.filter (fun u => c < u.timestamp)).isEmpty
      · rw [if_pos he, if_neg hbi]
        exact ih hn.2
      · rw [if_neg he, innerUpdatesFor_cons, if_neg hbi]
        simp only [if_neg hbi]
        exact ih hn.2

lemma updatesFor_cons (e : Nat × Nat × BlockUpdates) (rest : ContextHistoryUpdates)
    (mi bi : Nat) :
    updatesFor (e :: rest) mi bi =
      if e.1 = mi then innerUpdatesFor e.2.2 bi else updatesFor rest mi bi := by
  by_cases hx : e.1 = mi
  · rw [if_pos hx]
    unfold updatesFor entryFor
    rw [List.find?_cons_of_pos _ (by simp [hx])]
  · rw [if_neg hx]
    unfold updatesFor entryFor
    rw [List.find?_cons_of_neg _ (by simp [hx])]

lemma updatesFor_eq_nil_of_not_mem (m : ContextHistoryUpdates) (mi bi : Nat)
    (h : mi ∉ overlayKeys m) : updatesFor m mi bi = [] := by
  have hfind : m.find? (fun e => e.1 == mi) = none :=
    List.find?_eq_none.mpr (fun e he => by
      simp only [beq_iff_eq]
      intro heq
      exact h (List.mem_map.mpr ⟨e, he, heq⟩))
  simp [updatesFor, entryFor, hfind]

lemma keys_prune_subset (c : Nat) (m : ContextHistoryUpdates) :
    overlayKeys (pruneOldContextUpdates c m) ⊆ overlayKeys m := by
  intro x hx
  simp only [overlayKeys, pruneOldContextUpdates, List.mem_map] at hx
  obtain ⟨e, he, rfl⟩ := hx
  have he2 := List.mem_of_mem_filter he
  simp only [List.mem_map] at he2
  obtain ⟨a, ha, heq⟩ := he2
  exact List.mem_map.mpr ⟨a, ha, by rw [← heq]⟩

lemma prune_cons (c : Nat) (e : Nat × Nat × BlockUpdates) (rest : ContextHistoryUpdates) :
    pruneOldContextUpdates c (e :: rest) =
      if (pruneInner c e.2.2).isEmpty then pruneOldContextUpdates c rest
      else (e.1, e.2.1, pruneInner c e.2.2) :: pruneOldContextUpdates c rest := by
  simp only [pruneOldContextUpdates, List.map_cons, List.filter_cons]
  by_cases he : (pruneInner c e.2.2).isEmpty
  · simp [he]
  · simp [he]

/-- C5: the claim states that pruning always retains at least the latest
update per block. The source
(src/docs/cline-implementation-guide.md lines 903 to 921) deletes a block
whose every update is at or before the cutoff, so a block holding one update
of timestamp 0 loses it entirely at cutoff 100. -/
theorem C5_counterexample :
    ¬ (∀ (m : ContextHistoryUpdates) (cutoff mi bi : Nat) (u : ContextUpdate),
        latestUpdate m mi bi = some u →
        u ∈ updatesFor (pruneOldContextUpdates cutoff m) mi bi) := by
  intro h
  exact absurd
    (h [(5, 0, [(0, [⟨0, "text", "old"⟩])])] 100 5 0 ⟨0, "text", "old"⟩ (by decide))
    (by decide)

/-- C5 amended: pruning keeps exactly the updates with timestamp strictly
above the cutoff; a block whose updates all fall at or before the cutoff is
removed with no replacement retained (the overlay has map semantics: message
and block keys occur once). -/
theorem C5_amended_prune_filter (m : ContextHistoryUpdates) (cutoff mi bi : Nat)
    (hout : (overlayKeys m).Nodup)
    (hin : ∀ e ∈ m, (e.2.2.map (fun b => b.1)).Nodup) :
    updatesFor (pruneOldContextUpdates cutoff m) mi bi =
      (updatesFor m mi bi).filter (fun u => cutoff < u.timestamp) := by
  induction m with
  | nil => rfl
  | cons e rest ih =>
    simp only [overlayKeys, List.map_cons, List.nodup_cons] at hout
    rw [prune_cons, updatesFor_cons]
    by_cases hmi : e.1 = mi
    · by_cases he : (pruneInner cutoff e.2.2).isEmpty
      · rw [if_pos he, if_pos hmi]
        have hnot : mi ∉ overlayKeys (pruneOldContextUpdates cutoff rest) := by
          intro hmem
          exact hout.1 (hmi ▸ keys_prune_subset cutoff rest hmem)
        rw [updatesFor_eq_nil_of_not_mem _ _ _ hnot]
        have hinner := innerUpdatesFor_pruneInner cutoff e.2.2 bi
          (hin e (List.mem_cons_self e rest))
        rw [List.isEmpty_iff] at he
        rw [he] at hinner
        exact hinner
      · rw [if_neg he, updatesFor_cons]
        simp only [if_pos hmi]
        exact innerUpdatesFor_pruneInner cutoff e.2.2 bi (hin e (List.mem_cons_self e rest))
    · by_cases he : (pruneInner cutoff e.2.2).isEmpty
      · rw [if_pos he, if_neg hmi]
        exact ih (by simpa [overlayKeys] using hout.2)
          (fun a ha => hin a (List.mem_cons_of_mem e ha))
      · rw [if_neg he, updatesFor_cons]
        simp only [if_neg hmi]
        exact ih (by simpa [overlayKeys] using hout.2)
          (fun a ha => hin a (List.mem_cons_of_mem e ha))

/-- Witness for C5_amended_prune_filter on an overlay with two blocks, one of
which loses its only update at cutoff 100. -/
theorem C5_amended_prune_filter_witness :
    updatesFor (pruneOldContextUpdates 100
        [(5, 0, [(0, [⟨0, "text", "old"⟩]), (1, [⟨200, "text", "new"⟩])])]) 5 0 =
      (updatesFor [(5, 0, [(0, [⟨0, "text", "old"⟩]), (1, [⟨200, "text", "new"⟩])])] 5 0).filter
        (fun u => 100 < u.timestamp) :=
  C5_amended_prune_filter _ 100 5 0 (by decide) (by decide)

lemma updatesFor_nil (mi bi : Nat) : updatesFor [] mi bi = [] := rfl

lemma innerUpdatesFor_nil (bi : Nat) : innerUpdatesFor [] bi = [] := rfl

lemma innerUpdatesFor_addToInner_same (inner : BlockUpdates) (bi : Nat)
    (us : List ContextUpdate) :
    innerUpdatesFor (addToInner inner bi us) bi = innerUpdatesFor inner bi ++ us := by
  induction inner with
  | nil => simp [addToInner, innerUpdatesFor_cons, innerUpdatesFor_nil]
  | cons b rest ih =>
    by_cases hb : b.1 = bi
    · simp [addToInner, hb, innerUpdatesFor_cons]
    · simp [addToInner, hb, innerUpdatesFor_cons, ih]

lemma innerUpdatesFor_addToInner_other (inner : BlockUpdates) (bi k : Nat)
    (us : List ContextUpdate) (hk : k ≠ bi) :
    innerUpdatesFor (addToInner inner bi us) k = innerUpdatesFor inner k := by
  induction inner with
  | nil => simp [addToInner, innerUpdatesFor_cons, Ne.symm hk, innerUpdatesFor_nil]
  | cons b rest ih =>
    by_cases hb : b.1 = bi
    · simp [addToInner, hb, innerUpdatesFor_cons, Ne.symm hk, hb ▸ Ne.symm hk]
    · simp [addToInner, hb, innerUpdatesFor_cons, ih]

lemma updatesFor_addContextUpdate_same (m : ContextHistoryUpdates) (mi bi : Nat)
    (us : List ContextUpdate) :
    updatesFor (addContextUpdate m mi bi us) mi bi = updatesFor m mi bi ++ us := by
  induction m with
  | nil =>
    simp [addContextUpdate, updatesFor_cons, updatesFor_nil, innerUpdatesFor_cons,
      innerUpdatesFor_nil]
  | cons e rest ih =>
    by_cases he : e.1 = mi
    · simp [addContextUpdate, he, updatesFor_cons, innerUpdatesFor_addToInner_same]
    · simp [addContextUpdate, he, updatesFor_cons, ih]

lemma updatesFor_addContextUpdate_other (m : ContextHistoryUpdates) (mi bi j k : Nat)
    (us : List ContextUpdate) (hj : j ≠ mi) :
    updatesFor (addContextUpdate m mi bi us) j k = updatesFor m j k := by
  induction m with
  | nil => simp [addContextUpdate, updatesFor_cons, updatesFor_nil, Ne.symm hj]
  | cons e rest ih =>
    by_cases he : e.1 = mi
    · simp [addContextUpdate, he, updatesFor_cons, Ne.symm hj, he ▸ Ne.symm hj]
    · simp [addContextUpdate, he, updatesFor_cons, ih]

lemma latestUpdate_addContextUpdate_same (m : ContextHistoryUpdates) (mi bi : Nat)
    (u : ContextUpdate) :
    latestUpdate (addContextUpdate m mi bi [u]) mi bi = some u := by
  unfold latestUpdate
  rw [updatesFor_addContextUpdate_same]
  exact List.getLast?_concat _

/-- C6: the claim states that the dedup pass replaces the EARLIER occurrence
of a repeated file read and leaves the later one intact. The source
(src/docs/cline-implementation-guide.md lines 545 to 557) records the
placeholder at the CURRENT message index: with identical reads at indices 5
and 20, after processing index 20 it is index 20 that renders as the
placeholder while index 5 keeps the original content. -/
theorem C6_counterexample :
    ¬ (renderMessage dedupOverlayAfter20 5 readMsg =
         ⟨"user", [Block.text (duplicateReadPlaceholder "a.txt")]⟩ ∧
       renderMessage dedupOverlayAfter20 20 readMsg = readMsg) := by
  decide

/-- C6 amended: when a file path was already read by an earlier message, the
dedup update replaces the LATER occurrence: the latest update at the current
message index becomes the placeholder, and the overlay at every other message
index is untouched (so the earlier occurrence keeps its content). -/
theorem C6_amended_dedup_marks_later (overlay : ContextHistoryUpdates)
    (history : List Message) (mi : Nat) (filePath : String) (ts j k : Nat)
    (h : hasFileBeenRead history filePath mi = true) (hj : j ≠ mi) :
    latestUpdate (handleReadFileToolCall overlay history mi filePath ts) mi 0 =
      some ⟨ts, "text", duplicateReadPlaceholder filePath⟩ ∧
    updatesFor (handleReadFileToolCall overlay history mi filePath ts) j k =
      updatesFor overlay j k := by
  unfold handleReadFileToolCall
  rw [if_pos h]
  exact ⟨latestUpdate_addContextUpdate_same _ _ _ _,
    updatesFor_addContextUpdate_other _ _ _ _ _ _ hj⟩

/-- Witness for C6_amended_dedup_marks_later on the scenario history: read at
index 20, earlier identical read at index 5. -/
theorem C6_amended_dedup_marks_later_witness :
    latestUpdate (handleReadFileToolCall [] history21 20 "a.txt" 1000) 20 0 =
      some ⟨1000, "text", duplicateReadPlaceholder "a.txt"⟩ ∧
    updatesFor (handleReadFileToolCall [] history21 20 "a.txt" 1000) 5 0 =
      updatesFor [] 5 0 :=
  C6_amended_dedup_marks_later [] history21 20 "a.txt" 1000 5 0 (by decide) (by decide)

lemma insertRow_of_not_mem (acc : ContextHistoryUpdates) (r : SerRow)
    (h : r.messageIndex ∉ overlayKeys acc) :
    insertRow acc r =
      acc ++ [(r.messageIndex, r.editType, [(r.blockIndex, r.updates)])] := by
  induction acc with
  | nil => rfl
  | cons e rest ih =>
    simp only [overlayKeys, List.map_cons, List.mem_cons, not_or] at h
    simp only [insertRow, if_neg (Ne.symm h.1)]
    rw [ih (by simpa [overlayKeys] using h.2)]
    rfl

lemma insertRow_append_singleton (acc : ContextHistoryUpdates) (mi et : Nat)
    (inner : BlockUpdates) (r : SerRow) (hr : r.messageIndex = mi)
    (h : mi ∉ overlayKeys acc) :
    insertRow (acc ++ [(mi, et, inner)]) r =
      acc ++ [(mi, et, inner ++ [(r.blockIndex, r.updates)])] := by
  induction acc with
  | nil => simp [insertRow, hr]
  | cons e rest ih =>
    simp only [overlayKeys, List.map_cons, List.mem_cons, not_or] at h
    have hne2 : ¬ (e.1 = r.messageIndex) := by rw [hr]; exact Ne.symm h.1
    simp only [List.cons_append, insertRow, if_neg hne2, List.append_eq]
    rw [ih (by simpa [overlayKeys] using h.2)]

lemma foldl_insertRow_rows (acc : ContextHistoryUpdates) (mi et : Nat)
    (inner bs : BlockUpdates) (h : mi ∉ overlayKeys acc) :
    List.foldl insertRow (acc ++ [(mi, et, inner)])
        (bs.map (fun b => SerRow.mk mi et b.1 b.2)) =
      acc ++ [(mi, et, inner ++ bs)] := by
  induction bs generalizing inner with
  | nil => simp
  | cons b bs ih =>
    rw [List.map_cons, List.foldl_cons,
      insertRow_append_singleton acc mi et inner _ rfl h, ih (inner ++ [(b.1, b.2)])]
    simp

lemma foldl_insertRow_serialize (m : ContextHistoryUpdates) :
    ∀ acc : ContextHistoryUpdates,
    (∀ e ∈ m, e.1 ∉ overlayKeys acc) →
    (overlayKeys m).Nodup →
    (∀ e ∈ m, e.2.2 ≠ []) →
    List.foldl insertRow acc (serializeOverlay m) = acc ++ m := by
  induction m with
  | nil => intro acc _ _ _; simp [serializeOverlay]
  | cons e rest ih =>
    intro acc hdisj hnodup hne
    obtain ⟨mi, et, inner⟩ := e
    have hser : serializeOverlay ((mi, et, inner) :: rest) =
        inner.map (fun b => SerRow.mk mi et b.1 b.2) ++ serializeOverlay rest := by
      simp [serializeOverlay]
    rw [hser, List.foldl_append]
    have hmi : mi ∉ overlayKeys acc := hdisj (mi, et, inner) (List.mem_cons_self _ _)
    simp only [overlayKeys, List.map_cons, List.nodup_cons] at hnodup
    cases inner with
    | nil => exact absurd rfl (hne (mi, et, []) (List.mem_cons_self _ _))
    | cons b bs =>
      rw [List.map_cons, List.foldl_cons, insertRow_of_not_mem acc _ hmi,
        foldl_insertRow_rows acc mi et [(b.1, b.2)] bs hmi]
      have hstep : (acc ++ [(mi, et, [(b.1, b.2)] ++ bs)]) ++ rest =
          acc ++ ((mi, et, b :: bs) :: rest) := by
        simp
      rw [ih (acc ++ [(mi, et, [(b.1, b.2)] ++ bs)])
        (fun a ha => by
          have h2 : a.1 ≠ mi := fun heq => hnodup.1 (heq ▸ List.mem_map.mpr ⟨a, ha, rfl⟩)
          have h1 := hdisj a (List.mem_cons_of_mem _ ha)
          simp only [overlayKeys, List.map_append, List.mem_append, List.map_cons,
            List.map_nil, List.mem_singleton, not_or, List.not_mem_nil, or_false]
          exact ⟨by simpa [overlayKeys] using h1, h2⟩)
        (by simpa [overlayKeys] using hnodup.2)
        (fun a ha => hne a (List.mem_cons_of_mem _ ha)), hstep]

/-- C8: serialize and deserialize round-trip the overlay exactly, so effective
rendering is unchanged over the round-tripped overlay (persistence format
modelled from the spec, section 6; well-formedness of a Map: message keys are
unique and no message entry is empty). -/
theorem C8_roundtrip_preserves_overlay (x : ContextHistoryUpdates)
    (raw : List Message) (range : Option (Int × Int)) (tailKeep : Nat)
    (hnodup : (overlayKeys x).Nodup) (hne : ∀ e ∈ x, e.2.2 ≠ []) :
    deserializeOverlay (serializeOverlay x) = x ∧
    getEffectiveMessages (deserializeOverlay (serializeOverlay x)) raw range tailKeep =
      getEffectiveMessages x raw range tailKeep := by
  have h : deserializeOverlay (serializeOverlay x) = x := by
    unfold deserializeOverlay
    simpa using foldl_insertRow_serialize x [] (by simp [overlayKeys]) hnodup hne
  exact ⟨h, by rw [h]⟩

/-- Witness for C8_roundtrip_preserves_overlay on a two-message overlay with
out-of-order timestamps, rendered against the 21-message history. -/
theorem C8_roundtrip_preserves_overlay_witness :
    deserializeOverlay (serializeOverlay
        [(3, 1, [(0, [⟨7, "text", "v"⟩, ⟨2, "text", "w"⟩]), (2, [⟨5, "text", "y"⟩])]),
         (7, 0, [(1, [⟨3, "text", "x"⟩])])]) =
      [(3, 1, [(0, [⟨7, "text", "v"⟩, ⟨2, "text", "w"⟩]), (2, [⟨5, "text", "y"⟩])]),
       (7, 0, [(1, [⟨3, "text", "x"⟩])])] ∧
    getEffectiveMessages (deserializeOverlay (serializeOverlay
        [(3, 1, [(0, [⟨7, "text", "v"⟩, ⟨2, "text", "w"⟩]), (2, [⟨5, "text", "y"⟩])]),
         (7, 0, [(1, [⟨3, "text", "x"⟩])])])) history21 (some (1, 11)) 10 =
      getEffectiveMessages
        [(3, 1, [(0, [⟨7, "text", "v"⟩, ⟨2, "text", "w"⟩]), (2, [⟨5, "text", "y"⟩])]),
         (7, 0, [(1, [⟨3, "text", "x"⟩])])] history21 (some (1, 11)) 10 :=
  C8_roundtrip_preserves_overlay _ history21 (some (1, 11)) 10 (by decide) (by decide)

lemma restoreCheckpoint_resolve_none (repo : ShadowGitRepo) (hash : String)
    (h : resolveHash repo (cleanCommitHash hash) = none) :
    restoreCheckpoint repo hash =
      RestoreOutcome.err "Failed to restore checkpoint: git reset failed" := by
  unfold restoreCheckpoint
  rw [h]

lemma restoreCheckpoint_resolve_some (repo : ShadowGitRepo) (hash full : String)
    (h : resolveHash repo (cleanCommitHash hash) = some full) :
    restoreCheckpoint repo hash =
      (if strStartsWith full (cleanCommitHash hash) then
        RestoreOutcome.ok { repo with headCommit := full }
      else
        RestoreOutcome.err
          ("Failed to restore checkpoint: Restore verification failed: expected "
            ++ hash ++ ", got " ++ full)) := by
  unfold restoreCheckpoint
  rw [h]

lemma resolveHash_mem (repo : ShadowGitRepo) (hash c : String)
    (h : resolveHash repo hash = some c) :
    c ∈ repo.commits ∧ strStartsWith c hash = true := by
  unfold resolveHash at h
  cases hf : repo.commits.filter (fun x => strStartsWith x hash) with
  | nil => rw [hf] at h; exact absurd h (by simp)
  | cons a rest =>
    cases rest with
    | nil =>
      rw [hf] at h
      simp only [Option.some.injEq] at h
      have ha : a ∈ repo.commits.filter (fun x => strStartsWith x hash) := by
        rw [hf]; exact List.mem_cons_self a []
      rw [← h]
      exact ⟨List.mem_of_mem_filter ha, (List.mem_filter.mp ha).2⟩
    | cons a2 rest2 => rw [hf] at h; exact absurd h (by simp)

/-- C9: the claim states that restore verifies HEAD EQUALS the requested hash
and fails when they differ, and that a missing target yields a dedicated
CheckpointNotFoundError. The source
(src/docs/cline-implementation-guide.md line 717) only checks that HEAD
STARTS WITH the cleaned hash: restoring the prefix "abc" in a repository
whose only commit is "abcdef0" succeeds although HEAD ("abcdef0") differs
from the requested hash ("abc"). -/
theorem C9_counterexample :
    ¬ (∀ (repo : ShadowGitRepo) (hash : String) (r : ShadowGitRepo),
        restoreCheckpoint repo hash = RestoreOutcome.ok r → r.headCommit = hash) := by
  intro h
  exact absurd
    (h ⟨["abcdef0"], "abcdef0"⟩ "abc" ⟨["abcdef0"], "abcdef0"⟩ (by decide))
    (by decide)

/-- C9 amended: a successful restore guarantees only that HEAD starts with the
cleaned requested hash (equality when a full hash is passed) and that HEAD is
a commit of the repository; a missing restore target fails with a generic
wrapped error, not a dedicated CheckpointNotFoundError. -/
theorem C9_amended_restore_verifies_prefix (repo : ShadowGitRepo) (hash : String)
    (r : ShadowGitRepo) (repo2 : ShadowGitRepo) (h2 : String)
    (hok : restoreCheckpoint repo hash = RestoreOutcome.ok r)
    (hnone : resolveHash repo2 (cleanCommitHash h2) = none) :
    strStartsWith r.headCommit (cleanCommitHash hash) = true ∧
    r.headCommit ∈ repo.commits ∧
    restoreCheckpoint repo2 h2 =
      RestoreOutcome.err "Failed to restore checkpoint: git reset failed" := by
  cases hres : resolveHash repo (cleanCommitHash hash) with
  | none =>
    rw [restoreCheckpoint_resolve_none repo hash hres] at hok
    exact absurd hok (by simp)
  | some full =>
    rw [restoreCheckpoint_resolve_some repo hash full hres] at hok
    by_cases hsw : strStartsWith full (cleanCommitHash hash) = true
    · rw [if_pos hsw] at hok
      simp only [RestoreOutcome.ok.injEq] at hok
      subst hok
      exact ⟨hsw, (resolveHash_mem repo _ full hres).1,
        restoreCheckpoint_resolve_none repo2 h2 hnone⟩
    · rw [if_neg hsw] at hok
      exact absurd hok (by simp)

/-- Witness for C9_amended_restore_verifies_prefix: restoring the prefix
"abc" on a repository with commit "abcdef0", and a failing restore of the
unknown hash "zzz". -/
theorem C9_amended_restore_verifies_prefix_witness :
    strStartsWith (ShadowGitRepo.mk ["abcdef0"] "abcdef0").headCommit
      (cleanCommitHash "abc") = true ∧
    (ShadowGitRepo.mk ["abcdef0"] "abcdef0").headCommit ∈
      (ShadowGitRepo.mk ["abcdef0"] "abcdef0").commits ∧
    restoreCheckpoint ⟨["abcdef0"], "abcdef0"⟩ "zzz" =
      RestoreOutcome.err "Failed to restore checkpoint: git reset failed" :=
  C9_amended_restore_verifies_prefix ⟨["abcdef0"], "abcdef0"⟩ "abc"
    ⟨["abcdef0"], "abcdef0"⟩ ⟨["abcdef0"], "abcdef0"⟩ "zzz" (by decide) (by decide)

/-- C10: commit always succeeds (the allow-empty flag makes a no-change step a
valid commit), returns the fresh hash distinct from every logged one, grows
the log by exactly one snapshot, stages exactly the files not excluded, and
uses the allow-empty and no-verify options of the source
(src/docs/cline-implementation-guide.md lines 665 to 699; git semantics and
staging modelled from the spec, section 4.5). -/
theorem C10_commit_always_succeeds (repo : ShadowRepoState)
    (workingFiles : List (String × String)) (excluded : String → Bool)
    (message : String) (f : String × String) (c : Snapshot)
    (hc : c ∈ repo.log) (hwf : ∀ s ∈ repo.log, s.hash < repo.nextHash) :
    commitCheckpoint repo workingFiles excluded message =
      some ({ log := repo.log ++
                [Snapshot.mk repo.nextHash (addCheckpointFiles workingFiles excluded) message],
              nextHash := repo.nextHash + 1 }, repo.nextHash) ∧
    (repo.log ++
        [Snapshot.mk repo.nextHash (addCheckpointFiles workingFiles excluded) message]).length =
      repo.log.length + 1 ∧
    c.hash ≠ repo.nextHash ∧
    (f ∈ addCheckpointFiles workingFiles excluded ↔
      f ∈ workingFiles ∧ excluded f.1 = false) ∧
    checkpointCommitOptions.allowEmpty = true ∧
    checkpointCommitOptions.noVerify = true := by
  refine ⟨?_, by simp, Nat.ne_of_lt (hwf c hc), ?_, rfl, rfl⟩
  · unfold commitCheckpoint gitCommit checkpointCommitOptions
    simp
  · simp [addCheckpointFiles, List.mem_filter]

/-- Witness for C10_commit_always_succeeds: a commit whose staged tree equals
the last committed tree (zero file changes) still succeeds with a fresh hash. -/
theorem C10_commit_always_succeeds_witness :
    commitCheckpoint (ShadowRepoState.mk [Snapshot.mk 0 [("a.txt", "x")] "c0"] 1)
        [("a.txt", "x")] (fun _ => false) "checkpoint" =
      some ({ log := [Snapshot.mk 0 [("a.txt", "x")] "c0"] ++
                [Snapshot.mk 1 (addCheckpointFiles [("a.txt", "x")] (fun _ => false))
                  "checkpoint"],
              nextHash := 1 + 1 }, 1) ∧
    ([Snapshot.mk 0 [("a.txt", "x")] "c0"] ++
        [Snapshot.mk 1 (addCheckpointFiles [("a.txt", "x")] (fun _ => false))
          "checkpoint"]).length =
      [Snapshot.mk 0 [("a.txt", "x")] "c0"].length + 1 ∧
    (Snapshot.mk 0 [("a.txt", "x")] "c0").hash ≠ 1 ∧
    (("a.txt", "x") ∈ addCheckpointFiles [("a.txt", "x")] (fun _ => false) ↔
      ("a.txt", "x") ∈ [("a.txt", "x")] ∧
        (fun _ : String => false) ("a.txt", "x").1 = false) ∧
    checkpointCommitOptions.allowEmpty = true ∧
    checkpointCommitOptions.noVerify = true :=
  C10_commit_always_succeeds (ShadowRepoState.mk [Snapshot.mk 0 [("a.txt", "x")] "c0"] 1)
    [("a.txt", "x")] (fun _ => false) "checkpoint" ("a.txt", "x")
    (Snapshot.mk 0 [("a.txt", "x")] "c0") (by decide) (by decide)
